import Mathlib

/-!
Verification of `perdict.py` (class `PerDict`): a Python `dict` subclass that
mirrors its contents to a JSON file after every mutation (when `autosave` is
on) and loads the file's contents at construction.

The embedding models:
- Python/JSON values as the inductive `Value` (with `Value.ellipsis` for the
  Python `...` sentinel, which is not JSON-serializable);
- the in-memory `dict` as an insertion-ordered association list `Entries`
  with the standard CPython ordered-dict semantics (`dictSet` updates in
  place keeping position, or appends; `popitem` removes the last pair);
- the backing file as `FileContent`: zero bytes, a well-formed JSON
  document of a mapping, or invalid bytes (as left by a write that failed
  partway, e.g. `json.dump` hitting a non-serializable value after
  `open(..., 'w')` already truncated the file);
- each `PerDict` method as a function on the state
  `PerDict = (entries, autosave, file)` returning the possibly-raised
  exception together with the post-call state (Python exceptions propagate
  but the object and the file keep whatever state the call left them in).
-/

/-- A Python value storable in a `PerDict`: the JSON universe plus the
`...` (Ellipsis) singleton that the source uses as a default-argument
sentinel in `pop` and `setdefault`. -/
inductive Value where
  | null : Value
  | bool : Bool → Value
  | int : Int → Value
  | str : String → Value
  | list : List Value → Value
  | obj : List (String × Value) → Value
  | ellipsis : Value

mutual

/-- Structural equality on stored values. This is the Lean-side decidable
equality of the model, NOT Python's `==` — Python's `==` (which also
equates `True` with `1` and compares dicts order-insensitively) is modeled
separately by `Value.pyEq` below. -/
def Value.beq : Value → Value → Bool
  | .null, .null => true
  | .bool a, .bool b => a == b
  | .int a, .int b => a == b
  | .str a, .str b => a == b
  | .list a, .list b => Value.beqList a b
  | .obj a, .obj b => Value.beqObj a b
  | .ellipsis, .ellipsis => true
  | _, _ => false

/-- Elementwise structural equality on JSON arrays. -/
def Value.beqList : List Value → List Value → Bool
  | [], [] => true
  | x :: xs, y :: ys => Value.beq x y && Value.beqList xs ys
  | _, _ => false

/-- Pairwise (order-sensitive) structural equality on object entry lists. -/
def Value.beqObj : List (String × Value) → List (String × Value) → Bool
  | [], [] => true
  | p :: xs, q :: ys => (p.1 == q.1) && Value.beq p.2 q.2 && Value.beqObj xs ys
  | _, _ => false

end

mutual

theorem Value.beq_iff : ∀ (a b : Value), Value.beq a b = true ↔ a = b
  | .null, b => by cases b <;> simp [Value.beq]
  | .bool x, b => by cases b <;> simp [Value.beq]
  | .int x, b => by cases b <;> simp [Value.beq]
  | .str x, b => by cases b <;> simp [Value.beq]
  | .list xs, b => by
    cases b <;> simp [Value.beq]
    exact Value.beqList_iff xs _
  | .obj xs, b => by
    cases b <;> simp [Value.beq]
    exact Value.beqObj_iff xs _
  | .ellipsis, b => by cases b <;> simp [Value.beq]

theorem Value.beqList_iff : ∀ (a b : List Value), Value.beqList a b = true ↔ a = b
  | [], b => by cases b <;> simp [Value.beqList]
  | x :: xs, b => by
    cases b with
    | nil => simp [Value.beqList]
    | cons y ys =>
      simp [Value.beqList, Value.beq_iff x y, Value.beqList_iff xs ys]

theorem Value.beqObj_iff :
    ∀ (a b : List (String × Value)), Value.beqObj a b = true ↔ a = b
  | [], b => by cases b <;> simp [Value.beqObj]
  | p :: xs, b => by
    cases b with
    | nil => simp [Value.beqObj]
    | cons q ys =>
      simp [Value.beqObj, Value.beq_iff p.2 q.2, Value.beqObj_iff xs ys,
        Prod.ext_iff, and_assoc]

end

instance : DecidableEq Value :=
  fun a b => decidable_of_iff (Value.beq a b = true) (Value.beq_iff a b)

mutual

/-- Python `==` on stored values, as evaluated by
`PyObject_RichCompareBool(.., Py_EQ)`: `None`, booleans, numbers and
strings compare by value with the numeric cross-type equalities
`True == 1` and `False == 0` (`bool` is an `int` subtype); lists compare
elementwise; dicts compare order-insensitively (same key set, `==` values
per key, first occurrence looked up — a real dict has unique keys).
Structurally identical values short-circuit to equal, mirroring CPython's
identity fast path (`x is y` implies `x == y` here), which in particular
makes every value of this universe `==` itself. -/
def Value.pyEq : Value → Value → Bool
  | .null, .null => true
  | .bool x, .bool y => x == y
  | .bool x, .int n => (if x then (1 : Int) else 0) == n
  | .int n, .bool y => n == (if y then (1 : Int) else 0)
  | .int n, .int m => n == m
  | .str s, .str t => s == t
  | .list xs, .list ys => Value.pyEqList xs ys
  | .obj xs, .obj ys =>
    Value.beqObj xs ys ||
      (Value.pyEqObjFwd xs ys && ys.all (fun q => xs.any (fun p => p.1 == q.1)))
  | .ellipsis, .ellipsis => true
  | _, _ => false

/-- Elementwise Python `==` on JSON arrays (same length required). -/
def Value.pyEqList : List Value → List Value → Bool
  | [], [] => true
  | x :: xs, y :: ys => Value.pyEq x y && Value.pyEqList xs ys
  | _, _ => false

/-- Every binding on the left has a Python-`==` binding in the right
object. -/
def Value.pyEqObjFwd : List (String × Value) → List (String × Value) → Bool
  | [], _ => true
  | p :: xs, b =>
    (match b.find? (fun q => q.1 == p.1) with
     | some q => Value.pyEq p.2 q.2
     | none => false) && Value.pyEqObjFwd xs b

end

mutual

theorem Value.pyEq_refl : ∀ (a : Value), Value.pyEq a a = true
  | .null => rfl
  | .bool x => by simp [Value.pyEq]
  | .int n => by simp [Value.pyEq]
  | .str s => by simp [Value.pyEq]
  | .list xs => by
    simp only [Value.pyEq]
    exact Value.pyEqList_refl xs
  | .obj xs => by
    simp only [Value.pyEq]
    rw [(Value.beqObj_iff xs xs).mpr rfl]
    rfl
  | .ellipsis => rfl

theorem Value.pyEqList_refl : ∀ (xs : List Value), Value.pyEqList xs xs = true
  | [] => rfl
  | x :: xs => by
    simp only [Value.pyEqList]
    rw [Value.pyEq_refl x, Value.pyEqList_refl xs]
    rfl

end

mutual

/-- Whether `json.dump` can represent a value (everything except the
`ellipsis` sentinel, recursively). -/
def serializable : Value → Bool
  | .null => true
  | .bool _ => true
  | .int _ => true
  | .str _ => true
  | .list xs => serializableList xs
  | .obj xs => serializableObj xs
  | .ellipsis => false

/-- All elements of a JSON array are serializable. -/
def serializableList : List Value → Bool
  | [] => true
  | x :: xs => serializable x && serializableList xs

/-- All values of a JSON object are serializable. -/
def serializableObj : List (String × Value) → Bool
  | [] => true
  | p :: xs => serializable p.2 && serializableObj xs

end

/-- The in-memory mapping: an insertion-ordered association list, as CPython
dicts are insertion-ordered. -/
abbrev Entries := List (String × Value)

/-- `k in d`: Python dict key membership. -/
def dictContains (m : Entries) (k : String) : Bool :=
  m.any (fun p => p.1 == k)

/-- `d.get(k)`: lookup of the value bound to `k`, if any. -/
def dictGet (m : Entries) (k : String) : Option Value :=
  (m.find? (fun p => p.1 == k)).map (fun p => p.2)

/-- `d[k] = v`: update in place (keeping insertion position) when `k` is
present, append otherwise — CPython ordered-dict assignment. -/
def dictSet (m : Entries) (k : String) (v : Value) : Entries :=
  if dictContains m k then
    m.map (fun p => if p.1 == k then (k, v) else p)
  else
    m ++ [(k, v)]

/-- `del d[k]` after the presence check: remove the binding of `k`. -/
def dictDelete (m : Entries) (k : String) : Entries :=
  m.filter (fun p => p.1 != k)

/-- `dict.setdefault(d, k, v)` state effect: insert `(k, v)` only when `k`
is absent. -/
def dictSetdefault (m : Entries) (k : String) (v : Value) : Entries :=
  if dictContains m k then m else m ++ [(k, v)]

/-- The bytes of the backing file, viewed through the JSON codec. -/
inductive FileContent where
  | empty : FileContent
  | doc : Entries → FileContent
  | invalid : FileContent
deriving DecidableEq

/-- The exceptions of the spec's error model: `KeyNotFoundError` (Python
`KeyError` from `__delitem__`), `EmptyContainerError` (Python `KeyError`
from `popitem` on an empty dict), `SerializationError` (Python `TypeError`
from `json.dump`), `CorruptStoreError` (Python `json.JSONDecodeError` from
`json.load`). -/
inductive PDError where
  | keyNotFound : PDError
  | emptyContainer : PDError
  | serializationError : PDError
  | corruptStore : PDError
deriving DecidableEq

/-- The state of a `PerDict` object together with its backing file. -/
structure PerDict where
  entries : Entries
  autosave : Bool
  file : FileContent
deriving DecidableEq

namespace PerDict

/-- `save()` with no patch argument: `json.dump(self, f)` over the file
opened with `'w'`. On success the file holds exactly the current entries;
if a value is not serializable, `open('w')` has already truncated the file
and `json.dump` aborts partway, leaving invalid content and raising
`TypeError`. -/
def saveOp (d : PerDict) : Option PDError × PerDict :=
  if serializableObj d.entries then
    (none, { d with file := .doc d.entries })
  else
    (some .serializationError, { d with file := .invalid })

/-- `_autosave()`: save only when the `autosave` flag is set. -/
def autosaveStep (d : PerDict) : Option PDError × PerDict :=
  if d.autosave then d.saveOp else (none, d)

/-- `__setitem__`: assign in memory, then `_autosave`. -/
def setItem (d : PerDict) (k : String) (v : Value) : Option PDError × PerDict :=
  autosaveStep { d with entries := dictSet d.entries k v }

/-- `__delitem__`: `dict.__delitem__` raises `KeyError` on an absent key
(before any write); otherwise delete in memory, then `_autosave`. -/
def delItem (d : PerDict) (k : String) : Option PDError × PerDict :=
  if dictContains d.entries k then
    autosaveStep { d with entries := dictDelete d.entries k }
  else
    (some .keyNotFound, d)

/-- `update`: `dict.update` with a mapping argument assigns each pair in
order, then one `_autosave`. -/
def update (d : PerDict) (m : Entries) : Option PDError × PerDict :=
  autosaveStep { d with entries := m.foldl (fun acc p => dictSet acc p.1 p.2) d.entries }

/-- `clear`: `dict.clear`, then `_autosave`. -/
def clear (d : PerDict) : Option PDError × PerDict :=
  autosaveStep { d with entries := [] }

/-- Raising wrapper: an exception from an inner call propagates to the
caller; otherwise the computed result is returned. In both cases the object
keeps the state the inner call left it in. -/
def raising {α : Type} (s : Option PDError × PerDict) (a : α) :
    Except PDError α × PerDict :=
  match s.1 with
  | some e => (.error e, s.2)
  | none => (.ok a, s.2)

/-- `pop(key, default)`: `dict.pop(self, key, default)` never raises when a
default is supplied — on a miss it returns the default — and `_autosave`
runs in both cases. -/
def pop (d : PerDict) (k : String) (default : Value) : Except PDError Value × PerDict :=
  let (result, d1) :=
    match dictGet d.entries k with
    | some v => (v, { d with entries := dictDelete d.entries k })
    | none => (default, d)
  raising (autosaveStep d1) result

/-- `pop(key)` with no default argument: the source's default parameter
value `...` is passed to `dict.pop`, so a miss returns the `...` sentinel
instead of raising. -/
def popNoDefault (d : PerDict) (k : String) : Except PDError Value × PerDict :=
  d.pop k .ellipsis

/-- `popitem`: `dict.popitem` removes the most recently inserted pair
(LIFO) and raises `KeyError` on an empty dict; on success `_autosave`
runs. -/
def popitem (d : PerDict) : Except PDError (String × Value) × PerDict :=
  match d.entries.getLast? with
  | none => (.error .emptyContainer, d)
  | some p => raising (autosaveStep { d with entries := d.entries.dropLast }) p

/-- `setdefault(key, default)`: `dict.setdefault` in memory, then
`_autosave` exactly when `result == default` under Python `==`
(`Value.pyEq`) — which holds whenever the key was inserted (the result is
the default object itself), but also on a hit whose stored value compares
`==` to the default. -/
def setdefault (d : PerDict) (k : String) (default : Value) : Except PDError Value × PerDict :=
  let (result, d1) :=
    match dictGet d.entries k with
    | some v => (v, d)
    | none => (default, { d with entries := dictSetdefault d.entries k default })
  if Value.pyEq result default then
    raising (autosaveStep d1) result
  else
    (.ok result, d1)

/-- `setdefault(key)` with no default argument: the source's default
parameter value `...` is inserted on a miss. -/
def setdefaultNoDefault (d : PerDict) (k : String) : Except PDError Value × PerDict :=
  d.setdefault k .ellipsis

/-- `save(data)` with a patch: each pair is assigned via `self[k] = v`
(each triggering its own autosave, a failure of which propagates), then the
unconditional `json.dump`. -/
def saveData (d : PerDict) (data : Entries) : Option PDError × PerDict :=
  match data.foldl
      (fun st p =>
        match st with
        | (some e, d1) => (some e, d1)
        | (none, d1) => d1.setItem p.1 p.2)
      ((none : Option PDError), d) with
  | (some e, d1) => (some e, d1)
  | (none, d1) => d1.saveOp

/-- `__init__(path, autosave, **defaults)`: `touch` makes a missing file
empty; a non-empty file is parsed (`json.load` raises on invalid content
and the object is not created) and its pairs loaded via `dict.update`;
defaults are merged with `dict.setdefault` so existing keys win; finally
`_autosave`. A construction-time autosave failure propagates out of
`__init__`. -/
def init (file0 : FileContent) (autosave : Bool) (defaults : Entries) :
    Except PDError PerDict :=
  match file0 with
  | .invalid => .error .corruptStore
  | .empty =>
    match autosaveStep ⟨defaults.foldl (fun acc p => dictSetdefault acc p.1 p.2) [],
        autosave, .empty⟩ with
    | (some e, _) => .error e
    | (none, d) => .ok d
  | .doc m =>
    match autosaveStep ⟨defaults.foldl (fun acc p => dictSetdefault acc p.1 p.2)
        (m.foldl (fun acc p => dictSet acc p.1 p.2) []), autosave, .doc m⟩ with
    | (some e, _) => .error e
    | (none, d) => .ok d

/-- `__enter__`: returns `self`. -/
def enter (d : PerDict) : PerDict := d

/-- A `with d: body` block: `__enter__` returns the object, the body runs
(possibly raising), and `__exit__` calls `save()` unconditionally on every
exit path. -/
def withStmt (d : PerDict) (body : PerDict → Option PDError × PerDict) :
    Option PDError × PerDict :=
  let (e, d1) := body d.enter
  let (e2, d2) := d1.saveOp
  (match e with
   | some err => some err
   | none => e2, d2)

/-- The autosave invariant: the backing file holds exactly the JSON
serialization of the in-memory entries. -/
def fileMatches (d : PerDict) : Prop :=
  d.file = FileContent.doc d.entries

end PerDict

/-! ## Basic lemmas about the persistence step -/

namespace PerDict

theorem saveOp_entries (d : PerDict) : (d.saveOp).2.entries = d.entries := by
  unfold saveOp; split <;> rfl

theorem saveOp_autosave (d : PerDict) : (d.saveOp).2.autosave = d.autosave := by
  unfold saveOp; split <;> rfl

theorem saveOp_ser (d : PerDict) (hs : serializableObj d.entries = true) :
    d.saveOp = (none, { d with file := .doc d.entries }) := by
  unfold saveOp; rw [if_pos hs]

theorem autosaveStep_entries (d : PerDict) :
    (autosaveStep d).2.entries = d.entries := by
  unfold autosaveStep; split
  · exact saveOp_entries d
  · rfl

theorem autosaveStep_autosave (d : PerDict) :
    (autosaveStep d).2.autosave = d.autosave := by
  unfold autosaveStep; split
  · exact saveOp_autosave d
  · rfl

theorem autosaveStep_off (d : PerDict) (h : d.autosave = false) :
    autosaveStep d = (none, d) := by
  simp [autosaveStep, h]

theorem autosaveStep_on_ser (d : PerDict) (ha : d.autosave = true)
    (hs : serializableObj d.entries = true) :
    autosaveStep d = (none, { d with file := .doc d.entries }) := by
  simp [autosaveStep, ha, saveOp, hs]

theorem autosaveStep_ok_matches (d : PerDict) (ha : d.autosave = true)
    (h : (autosaveStep d).1 = none) : fileMatches (autosaveStep d).2 := by
  by_cases hs : serializableObj d.entries = true
  · rw [autosaveStep_on_ser d ha hs]
    rfl
  · exfalso
    simp [autosaveStep, ha, saveOp, hs] at h

theorem raising_ok {α : Type} (s : Option PDError × PerDict) (a r : α) (d' : PerDict)
    (h : raising s a = (.ok r, d')) : s.1 = none ∧ r = a ∧ s.2 = d' := by
  rcases s with ⟨e, d2⟩
  cases e <;> simp_all [raising]

theorem raising_snd {α : Type} (s : Option PDError × PerDict) (a : α) :
    (raising s a).2 = s.2 := by
  rcases s with ⟨e, d2⟩
  cases e <;> rfl

end PerDict

/-! ## Lemmas about the ordered-dict operations -/

theorem dictContains_append (a b : Entries) (k : String) :
    dictContains (a ++ b) k = (dictContains a k || dictContains b k) := by
  simp [dictContains, List.any_append]

theorem dictGet_eq_none_iff (m : Entries) (k : String) :
    dictGet m k = none ↔ dictContains m k = false := by
  simp [dictGet, dictContains, Option.map_eq_none', List.find?_eq_none,
    List.any_eq_false]

theorem dictContains_cons (p : String × Value) (rest : Entries) (k : String) :
    dictContains (p :: rest) k = ((p.1 == k) || dictContains rest k) := by
  simp [dictContains]

theorem dictGet_cons (p : String × Value) (rest : Entries) (k : String) :
    dictGet (p :: rest) k =
      if (p.1 == k) = true then some p.2 else dictGet rest k := by
  by_cases hp : (p.1 == k) = true <;> simp [dictGet, List.find?_cons, hp]

theorem dictGet_append_left (a : Entries) (b : Entries) (k : String)
    (h : dictContains a k = true) : dictGet (a ++ b) k = dictGet a k := by
  induction a with
  | nil => simp [dictContains] at h
  | cons p rest ih =>
    rw [dictContains_cons] at h
    by_cases hp : (p.1 == k) = true
    · rw [List.cons_append, dictGet_cons, dictGet_cons, if_pos hp, if_pos hp]
    · rw [Bool.eq_false_iff.mpr hp, Bool.false_or] at h
      rw [List.cons_append, dictGet_cons, dictGet_cons, if_neg hp, if_neg hp]
      exact ih h

theorem dictGet_append_right (a : Entries) (b : Entries) (k : String)
    (h : dictContains a k = false) : dictGet (a ++ b) k = dictGet b k := by
  induction a with
  | nil => rfl
  | cons p rest ih =>
    rw [dictContains_cons, Bool.or_eq_false_iff] at h
    rw [List.cons_append, dictGet_cons, if_neg (by simp [h.1])]
    exact ih h.2

theorem dictGet_singleton (k : String) (v : Value) :
    dictGet [(k, v)] k = some v := by
  simp [dictGet, List.find?_cons]

theorem dictGet_append_self (a : Entries) (k : String) (v : Value)
    (h : dictContains a k = false) : dictGet (a ++ [(k, v)]) k = some v := by
  rw [dictGet_append_right a _ k h]
  exact dictGet_singleton k v

theorem serializableObj_append (a b : List (String × Value)) :
    serializableObj (a ++ b) = (serializableObj a && serializableObj b) := by
  induction a with
  | nil => simp [serializableObj]
  | cons p rest ih => simp [serializableObj, ih, Bool.and_assoc]

/-! ## Lemmas about loading and default seeding -/

theorem foldl_dictSet_fresh :
    ∀ (M acc : Entries), (∀ p ∈ M, dictContains acc p.1 = false) →
      (M.map Prod.fst).Nodup →
      M.foldl (fun a p => dictSet a p.1 p.2) acc = acc ++ M
  | [], acc, _, _ => by simp
  | p :: rest, acc, h, hnd => by
    have hp : dictContains acc p.1 = false := h p (by simp)
    have hstep : dictSet acc p.1 p.2 = acc ++ [p] := by
      unfold dictSet
      rw [if_neg (by simp [hp])]
    rw [List.map_cons, List.nodup_cons] at hnd
    rw [List.foldl_cons, hstep,
      foldl_dictSet_fresh rest (acc ++ [p]) ?_ hnd.2]
    · simp
    · intro q hq
      rw [dictContains_append, dictContains_cons]
      have h1 : dictContains acc q.1 = false := h q (by simp [hq])
      have hne : (p.1 == q.1) = false := by
        rw [beq_eq_false_iff_ne]
        intro e
        exact hnd.1 (e ▸ List.mem_map_of_mem Prod.fst hq)
      rw [h1, hne]
      simp [dictContains]

theorem foldl_dictSetdefault_present :
    ∀ (defs acc : Entries) (k : String), dictContains acc k = true →
      dictGet (defs.foldl (fun a p => dictSetdefault a p.1 p.2) acc) k = dictGet acc k ∧
      dictContains (defs.foldl (fun a p => dictSetdefault a p.1 p.2) acc) k = true
  | [], acc, k, h => ⟨rfl, h⟩
  | q :: rest, acc, k, h => by
    rw [List.foldl_cons]
    have hstep :
        dictGet (dictSetdefault acc q.1 q.2) k = dictGet acc k ∧
        dictContains (dictSetdefault acc q.1 q.2) k = true := by
      unfold dictSetdefault
      split
      · exact ⟨rfl, h⟩
      · refine ⟨dictGet_append_left acc _ k h, ?_⟩
        rw [dictContains_append, h, Bool.true_or]
    obtain ⟨ih1, ih2⟩ :=
      foldl_dictSetdefault_present rest (dictSetdefault acc q.1 q.2) k hstep.2
    exact ⟨ih1.trans hstep.1, ih2⟩

theorem foldl_dictSetdefault_absent :
    ∀ (defs acc : Entries) (k : String) (v : Value),
      dictContains acc k = false → (k, v) ∈ defs → (defs.map Prod.fst).Nodup →
      dictGet (defs.foldl (fun a p => dictSetdefault a p.1 p.2) acc) k = some v
  | [], _, _, _, _, hmem, _ => absurd hmem (by simp)
  | q :: rest, acc, k, v, hacc, hmem, hnd => by
    rw [List.map_cons, List.nodup_cons] at hnd
    rw [List.foldl_cons]
    rcases List.mem_cons.mp hmem with heq | hmem'
    · cases heq
      have hstep : dictSetdefault acc k v = acc ++ [(k, v)] := by
        unfold dictSetdefault
        rw [if_neg (by simp [hacc])]
      have hcont : dictContains (acc ++ [(k, v)]) k = true := by
        rw [dictContains_append, dictContains_cons]
        simp
      have hget : dictGet (acc ++ [(k, v)]) k = some v :=
        dictGet_append_self acc k v hacc
      rw [hstep]
      obtain ⟨h1, _⟩ :=
        foldl_dictSetdefault_present rest (acc ++ [(k, v)]) k hcont
      exact h1.trans hget
    · have hqk : (q.1 == k) = false := by
        rw [beq_eq_false_iff_ne]
        intro e
        exact hnd.1 (e ▸ List.mem_map_of_mem Prod.fst hmem')
      have hacc' : dictContains (dictSetdefault acc q.1 q.2) k = false := by
        unfold dictSetdefault
        split
        · exact hacc
        · rw [dictContains_append, dictContains_cons, hacc, hqk]
          rfl
      exact foldl_dictSetdefault_absent rest _ k v hacc' hmem' hnd.2

namespace PerDict

theorem init_doc_ok (m defs : Entries) (a : Bool) (d : PerDict)
    (h : PerDict.init (.doc m) a defs = .ok d) :
    d.entries = defs.foldl (fun acc p => dictSetdefault acc p.1 p.2)
        (m.foldl (fun acc p => dictSet acc p.1 p.2) []) ∧
      d.autosave = a := by
  simp only [init] at h
  split at h
  · exact absurd h (by simp)
  · rename_i d2 heq
    injection h with h2
    subst h2
    constructor
    · have := autosaveStep_entries
        ⟨defs.foldl (fun acc p => dictSetdefault acc p.1 p.2)
          (m.foldl (fun acc p => dictSet acc p.1 p.2) []), a, .doc m⟩
      rw [heq] at this
      exact this
    · have := autosaveStep_autosave
        ⟨defs.foldl (fun acc p => dictSetdefault acc p.1 p.2)
          (m.foldl (fun acc p => dictSet acc p.1 p.2) []), a, .doc m⟩
      rw [heq] at this
      exact this

end PerDict

namespace PerDict

theorem autosaveStep_pair_matches (x : PerDict) (d' : PerDict)
    (h : autosaveStep x = (none, d')) (ha : x.autosave = true) : fileMatches d' := by
  have h1 : (autosaveStep x).1 = none := by rw [h]
  have h2 := autosaveStep_ok_matches x ha h1
  rw [h] at h2
  exact h2

theorem raising_autosave_matches {α : Type} (x : PerDict) (a r : α) (d' : PerDict)
    (h : raising (autosaveStep x) a = (.ok r, d'))
    (ha : x.autosave = true) : fileMatches d' := by
  obtain ⟨h1, _, h3⟩ := raising_ok _ a r d' h
  have h2 := autosaveStep_ok_matches x ha h1
  rw [h3] at h2
  exact h2

end PerDict

/-! ## The claims -/

/-- C1: after any mutating operation (`__setitem__`, `__delitem__`,
`update`, `clear`, `pop`, `popitem`, `setdefault`) that completes without
raising, performed with `autosave = true`, the backing file's content
deserializes to exactly the in-memory entries — each save is a whole-map
overwrite, so the invariant `fileMatches` is maintained. -/
theorem autosave_fidelity (d : PerDict) (k : String) (v : Value) (m : Entries)
    (ha : d.autosave = true) (hinv : PerDict.fileMatches d) :
    (∀ d', d.setItem k v = (none, d') → PerDict.fileMatches d') ∧
    (∀ d', d.delItem k = (none, d') → PerDict.fileMatches d') ∧
    (∀ d', d.update m = (none, d') → PerDict.fileMatches d') ∧
    (∀ d', d.clear = (none, d') → PerDict.fileMatches d') ∧
    (∀ r d', d.pop k v = (.ok r, d') → PerDict.fileMatches d') ∧
    (∀ r d', d.popitem = (.ok r, d') → PerDict.fileMatches d') ∧
    (∀ r d', d.setdefault k v = (.ok r, d') → PerDict.fileMatches d') := by
  refine ⟨?_, ?_, ?_, ?_, ?_, ?_, ?_⟩
  · intro d' h
    exact PerDict.autosaveStep_pair_matches _ d' h ha
  · intro d' h
    unfold PerDict.delItem at h
    split at h
    · exact PerDict.autosaveStep_pair_matches _ d' h ha
    · exact absurd h (by simp)
  · intro d' h
    exact PerDict.autosaveStep_pair_matches _ d' h ha
  · intro d' h
    exact PerDict.autosaveStep_pair_matches _ d' h ha
  · intro r d' h
    unfold PerDict.pop at h
    cases hg : dictGet d.entries k with
    | some v0 =>
      simp only [hg] at h
      exact PerDict.raising_autosave_matches _ _ r d' h ha
    | none =>
      simp only [hg] at h
      exact PerDict.raising_autosave_matches _ _ r d' h ha
  · intro r d' h
    unfold PerDict.popitem at h
    split at h
    · exact absurd h (by simp)
    · exact PerDict.raising_autosave_matches _ _ r d' h ha
  · intro r d' h
    unfold PerDict.setdefault at h
    cases hg : dictGet d.entries k with
    | some v0 =>
      simp only [hg] at h
      by_cases hb : Value.pyEq v0 v = true
      · rw [if_pos hb] at h
        exact PerDict.raising_autosave_matches _ _ r d' h ha
      · rw [if_neg hb] at h
        injection h with h1 h2
        rw [← h2]
        exact hinv
    | none =>
      simp only [hg] at h
      rw [if_pos (Value.pyEq_refl v)] at h
      exact PerDict.raising_autosave_matches _ _ r d' h ha

theorem autosave_fidelity_witness :
    PerDict.fileMatches ⟨[("a", Value.int 2)], true, .doc [("a", Value.int 2)]⟩ :=
  (autosave_fidelity ⟨[("a", Value.int 1)], true, .doc [("a", Value.int 1)]⟩
    "a" (Value.int 2) [] rfl rfl).1 _ rfl

theorem PerDict.autosaveStep_on_nonser (d : PerDict) (ha : d.autosave = true)
    (hs : serializableObj d.entries = false) :
    PerDict.autosaveStep d = (some .serializationError, { d with file := .invalid }) := by
  simp [PerDict.autosaveStep, ha, PerDict.saveOp, hs]

/-- C2: round-trip — for any serializable mapping `M`, `save()` writes the
serialization of `M` to the file, and constructing a fresh `PerDict`
against that file with no defaults yields in-memory entries equal to `M`. -/
theorem round_trip (M : Entries) (a : Bool) (f : FileContent)
    (hnd : (M.map Prod.fst).Nodup) (hs : serializableObj M = true) :
    PerDict.saveOp ⟨M, a, f⟩ = (none, ⟨M, a, .doc M⟩) ∧
    PerDict.init (.doc M) true [] = Except.ok ⟨M, true, .doc M⟩ := by
  have hload : M.foldl (fun acc p => dictSet acc p.1 p.2) [] = M := by
    simpa using foldl_dictSet_fresh M [] (fun p _ => rfl) hnd
  constructor
  · exact PerDict.saveOp_ser ⟨M, a, f⟩ hs
  · simp only [PerDict.init, List.foldl_nil, hload]
    rw [PerDict.autosaveStep_on_ser ⟨M, true, .doc M⟩ rfl hs]

theorem round_trip_witness :
    PerDict.saveOp ⟨[("a", Value.int 1)], false, .empty⟩
      = (none, ⟨[("a", Value.int 1)], false, .doc [("a", Value.int 1)]⟩) ∧
    PerDict.init (.doc [("a", Value.int 1)]) true []
      = Except.ok ⟨[("a", Value.int 1)], true, .doc [("a", Value.int 1)]⟩ :=
  round_trip [("a", Value.int 1)] false .empty (by simp) rfl

/-- C3: `__delitem__` on an absent key raises `KeyNotFoundError` (before
any write), but `pop` invoked without a default does NOT raise on an absent
key — the source passes its `...` default-parameter sentinel to `dict.pop`,
so the call returns the sentinel normally (shown with `autosave = false`:
state and file untouched). This contradicts the method's own docstring,
which says `KeyError` is raised when the key is not found and no default is
provided. -/
theorem delete_raises_pop_returns_sentinel (d : PerDict) (k : String)
    (hk : dictContains d.entries k = false) :
    d.delItem k = (some PDError.keyNotFound, d) ∧
    (d.autosave = false → d.popNoDefault k = (Except.ok Value.ellipsis, d)) := by
  constructor
  · unfold PerDict.delItem
    rw [if_neg (by simp [hk])]
  · intro ha
    unfold PerDict.popNoDefault PerDict.pop
    have hg : dictGet d.entries k = none := (dictGet_eq_none_iff d.entries k).mpr hk
    simp only [hg]
    rw [PerDict.autosaveStep_off d ha]
    rfl

theorem delete_raises_pop_returns_sentinel_witness :
    PerDict.delItem ⟨[], false, .empty⟩ "x"
      = (some PDError.keyNotFound, ⟨[], false, .empty⟩) ∧
    PerDict.popNoDefault ⟨[], false, .empty⟩ "x"
      = (Except.ok Value.ellipsis, ⟨[], false, .empty⟩) :=
  ⟨(delete_raises_pop_returns_sentinel ⟨[], false, .empty⟩ "x" rfl).1,
   (delete_raises_pop_returns_sentinel ⟨[], false, .empty⟩ "x" rfl).2 rfl⟩

/-- C4 counterexample: with `autosave = true` and key `"a"` already present
with value `1`, `setdefault("a", 1)` nevertheless writes the backing file —
starting from invalid file content, the file afterwards holds a fresh
serialization — because the source saves whenever `result == default`,
which also fires on a hit whose stored value equals the default. -/
theorem setdefault_hit_writes_counterexample :
    dictContains [("a", Value.int 1)] "a" = true ∧
    (PerDict.setdefault ⟨[("a", Value.int 1)], true, .invalid⟩
        "a" (Value.int 1)).2.file = .doc [("a", Value.int 1)] ∧
    FileContent.invalid ≠ FileContent.doc [("a", Value.int 1)] :=
  ⟨rfl, rfl, fun h => FileContent.noConfusion h⟩

/-- C4 amended: with `autosave = true`, `setdefault(key, default)`
re-serializes and overwrites the backing file iff the value it returns
compares Python-equal (`==`, modeled by `Value.pyEq`) to the supplied
default — that is, the key was previously absent (and was inserted, the
return value being the default itself), or it was present with a stored
value `==` the default; only when the key is present with a stored value
that is not `==` the default does the call leave the file (and the whole
state) untouched. -/
theorem setdefault_write_iff (d : PerDict) (k : String) (v : Value)
    (ha : d.autosave = true)
    (hs : serializableObj (dictSetdefault d.entries k v) = true) :
    ((dictGet d.entries k = none ∨
        (∃ v0, dictGet d.entries k = some v0 ∧ Value.pyEq v0 v = true)) →
      (d.setdefault k v).2.file = .doc ((d.setdefault k v).2.entries)) ∧
    (∀ v0, dictGet d.entries k = some v0 → Value.pyEq v0 v = false →
      d.setdefault k v = (Except.ok v0, d)) := by
  constructor
  · intro hcase
    unfold PerDict.setdefault
    rcases hcase with hg | ⟨v0, hg, hb⟩
    · simp only [hg]
      rw [if_pos (Value.pyEq_refl v)]
      rw [PerDict.autosaveStep_on_ser
        ⟨dictSetdefault d.entries k v, d.autosave, d.file⟩ ha hs]
      rfl
    · have hc : dictContains d.entries k = true := by
        cases hcc : dictContains d.entries k
        · rw [(dictGet_eq_none_iff _ _).mpr hcc] at hg
          exact absurd hg (by simp)
        · rfl
      have heq : dictSetdefault d.entries k v = d.entries := by
        unfold dictSetdefault
        rw [if_pos hc]
      rw [heq] at hs
      simp only [hg]
      rw [if_pos hb]
      rw [PerDict.autosaveStep_on_ser d ha hs]
      rfl
  · intro v0 hg hb
    unfold PerDict.setdefault
    simp only [hg]
    rw [if_neg (by simp [hb])]

theorem setdefault_write_iff_witness :
    (PerDict.setdefault ⟨[("a", Value.int 1)], true, .doc [("a", Value.int 1)]⟩
        "b" (Value.int 2)).2.file
      = .doc ((PerDict.setdefault
          ⟨[("a", Value.int 1)], true, .doc [("a", Value.int 1)]⟩
          "b" (Value.int 2)).2.entries) :=
  (setdefault_write_iff ⟨[("a", Value.int 1)], true, .doc [("a", Value.int 1)]⟩
    "b" (Value.int 2) rfl rfl).1 (Or.inl rfl)

/-- C5: constructing against an existing non-empty backing file, every key
present in the loaded file content keeps its file value (defaults never
override), while default keys absent from the file are inserted with their
default value; in particular a file `{"a": 1}` with defaults
`{"a": 9, "b": 2}` yields `{"a": 1, "b": 2}`. -/
theorem default_precedence (m defs : Entries) (a : Bool) (d : PerDict)
    (hm : (m.map Prod.fst).Nodup) (hdefs : (defs.map Prod.fst).Nodup)
    (h : PerDict.init (.doc m) a defs = .ok d) :
    (∀ k, dictContains m k = true → dictGet d.entries k = dictGet m k) ∧
    (∀ k v, dictContains m k = false → (k, v) ∈ defs →
      dictGet d.entries k = some v) ∧
    PerDict.init (.doc [("a", Value.int 1)]) true
        [("a", Value.int 9), ("b", Value.int 2)]
      = Except.ok ⟨[("a", Value.int 1), ("b", Value.int 2)], true,
          .doc [("a", Value.int 1), ("b", Value.int 2)]⟩ := by
  obtain ⟨he, _⟩ := PerDict.init_doc_ok m defs a d h
  have hload : m.foldl (fun acc p => dictSet acc p.1 p.2) [] = m := by
    simpa using foldl_dictSet_fresh m [] (fun p _ => rfl) hm
  rw [hload] at he
  refine ⟨?_, ?_, rfl⟩
  · intro k hk
    rw [he]
    exact (foldl_dictSetdefault_present defs m k hk).1
  · intro k v hk hmem
    rw [he]
    exact foldl_dictSetdefault_absent defs m k v hk hmem hdefs

theorem default_precedence_witness :
    dictGet (⟨[("a", Value.int 1), ("b", Value.int 2)], true,
        .doc [("a", Value.int 1), ("b", Value.int 2)]⟩ : PerDict).entries "a"
      = dictGet [("a", Value.int 1)] "a" :=
  (default_precedence [("a", Value.int 1)]
      [("a", Value.int 9), ("b", Value.int 2)] true
      ⟨[("a", Value.int 1), ("b", Value.int 2)], true,
        .doc [("a", Value.int 1), ("b", Value.int 2)]⟩
      (by simp) (by simp) rfl).1 "a" rfl

/-- C6: with `autosave = false` no mutating operation touches the backing
file; only an explicit `save()` writes it (and then writes the full
serialization of the current entries). -/
theorem autosave_suppression (d : PerDict) (k : String) (v : Value) (m : Entries)
    (ha : d.autosave = false) :
    (d.setItem k v).2.file = d.file ∧
    (d.delItem k).2.file = d.file ∧
    (d.update m).2.file = d.file ∧
    (d.clear).2.file = d.file ∧
    (d.pop k v).2.file = d.file ∧
    (d.popitem).2.file = d.file ∧
    (d.setdefault k v).2.file = d.file ∧
    (serializableObj d.entries = true →
      (d.saveOp).2.file = .doc d.entries) := by
  refine ⟨?_, ?_, ?_, ?_, ?_, ?_, ?_, ?_⟩
  · unfold PerDict.setItem
    rw [PerDict.autosaveStep_off]
    exact ha
  · unfold PerDict.delItem
    split
    · rw [PerDict.autosaveStep_off]
      exact ha
    · rfl
  · unfold PerDict.update
    rw [PerDict.autosaveStep_off]
    exact ha
  · unfold PerDict.clear
    rw [PerDict.autosaveStep_off]
    exact ha
  · unfold PerDict.pop
    cases hg : dictGet d.entries k with
    | some v0 =>
      simp only [hg]
      rw [PerDict.raising_snd, PerDict.autosaveStep_off]
      exact ha
    | none =>
      simp only [hg]
      rw [PerDict.raising_snd, PerDict.autosaveStep_off]
      exact ha
  · unfold PerDict.popitem
    split
    · rfl
    · rw [PerDict.raising_snd, PerDict.autosaveStep_off]
      exact ha
  · unfold PerDict.setdefault
    cases hg : dictGet d.entries k with
    | some v0 =>
      by_cases hb : Value.pyEq v0 v = true
      · simp only [hg]
        rw [if_pos hb]
        rw [PerDict.raising_snd, PerDict.autosaveStep_off]
        exact ha
      · simp only [hg]
        rw [if_neg hb]
    | none =>
      simp only [hg]
      rw [if_pos (Value.pyEq_refl v)]
      rw [PerDict.raising_snd, PerDict.autosaveStep_off]
      exact ha
  · intro hs
    rw [PerDict.saveOp_ser d hs]

theorem autosave_suppression_witness :
    (PerDict.setItem ⟨[("a", Value.int 1)], false, .doc []⟩
        "b" (Value.int 2)).2.file = .doc [] :=
  (autosave_suppression ⟨[("a", Value.int 1)], false, .doc []⟩
    "b" (Value.int 2) [] rfl).1

/-- C7: `__enter__` returns the object itself, and `__exit__` calls
`save()` unconditionally on every exit path (whether the body finished
normally or raised), so with `autosave = false` the backing file after the
block holds exactly the entries as mutated inside the block. -/
theorem scoped_flush (d : PerDict) (body : PerDict → Option PDError × PerDict)
    (ha : d.autosave = false)
    (hs : serializableObj (body d.enter).2.entries = true) :
    d.enter = d ∧
    (d.withStmt body).2.entries = (body d).2.entries ∧
    (d.withStmt body).2.file = .doc ((body d).2.entries) := by
  unfold PerDict.enter at hs
  refine ⟨rfl, ?_, ?_⟩ <;>
  · unfold PerDict.withStmt PerDict.enter
    rcases hb : body d with ⟨e, d1⟩
    rw [hb] at hs
    simp only [hb]
    rw [PerDict.saveOp_ser d1 hs]

theorem scoped_flush_witness :
    PerDict.enter ⟨[], false, .empty⟩ = (⟨[], false, .empty⟩ : PerDict) ∧
    (PerDict.withStmt ⟨[], false, .empty⟩
        (fun x => x.setItem "k" (Value.int 1))).2.entries
      = (PerDict.setItem ⟨[], false, .empty⟩ "k" (Value.int 1)).2.entries ∧
    (PerDict.withStmt ⟨[], false, .empty⟩
        (fun x => x.setItem "k" (Value.int 1))).2.file
      = .doc ((PerDict.setItem ⟨[], false, .empty⟩ "k" (Value.int 1)).2.entries) :=
  scoped_flush ⟨[], false, .empty⟩ (fun x => x.setItem "k" (Value.int 1)) rfl rfl

/-- C8: `clear()` with `autosave = true` always succeeds and leaves the
backing file holding a well-formed serialization of the empty mapping (the
empty object is always serializable — the file is not truncated to zero
bytes), and constructing a fresh instance from that file succeeds without
`CorruptStoreError`, yielding an empty map. -/
theorem clear_wellformed (d : PerDict) (ha : d.autosave = true) :
    d.clear = (none, ⟨[], d.autosave, .doc []⟩) ∧
    PerDict.init (.doc []) true [] = .ok ⟨[], true, .doc []⟩ := by
  constructor
  · unfold PerDict.clear
    rw [PerDict.autosaveStep_on_ser ⟨[], d.autosave, d.file⟩ ha rfl]
  · rfl

theorem clear_wellformed_witness :
    PerDict.clear ⟨[("a", Value.int 1)], true, .invalid⟩
      = (none, ⟨[], true, .doc []⟩) ∧
    PerDict.init (.doc []) true [] = .ok ⟨[], true, .doc []⟩ :=
  clear_wellformed ⟨[("a", Value.int 1)], true, .invalid⟩ rfl

/-- C9: `popitem()` on a map with zero entries raises
`EmptyContainerError`, and the whole state — in particular the backing
file — is unchanged: the error is raised before any write happens. -/
theorem popitem_empty_raises (d : PerDict) (h : d.entries = []) :
    d.popitem = (.error PDError.emptyContainer, d) := by
  unfold PerDict.popitem
  rw [h]
  rfl

theorem popitem_empty_raises_witness :
    PerDict.popitem ⟨[], true, .doc [("x", Value.null)]⟩
      = (.error PDError.emptyContainer, ⟨[], true, .doc [("x", Value.null)]⟩) :=
  popitem_empty_raises ⟨[], true, .doc [("x", Value.null)]⟩ rfl

/-- C10: `setdefault(key)` called without an explicit default on an absent
key inserts the `...` sentinel as the stored value (neither a failure nor a
no-op); with `autosave = true` the triggered save then raises
`SerializationError` because the sentinel has no JSON representation, and
the sentinel remains in the in-memory entries. -/
theorem setdefault_sentinel (d : PerDict) (k : String)
    (ha : d.autosave = true) (hg : dictGet d.entries k = none) :
    (d.setdefaultNoDefault k).1 = .error PDError.serializationError ∧
    dictGet (d.setdefaultNoDefault k).2.entries k = some Value.ellipsis := by
  have hc : dictContains d.entries k = false := (dictGet_eq_none_iff _ _).mp hg
  have hins : dictSetdefault d.entries k .ellipsis
      = d.entries ++ [(k, .ellipsis)] := by
    unfold dictSetdefault
    rw [if_neg (by simp [hc])]
  have hser : serializableObj (dictSetdefault d.entries k Value.ellipsis) = false := by
    rw [hins, serializableObj_append]
    simp [serializableObj, serializable]
  unfold PerDict.setdefaultNoDefault PerDict.setdefault
  simp only [hg]
  rw [if_pos (Value.pyEq_refl Value.ellipsis)]
  rw [PerDict.autosaveStep_on_nonser
    ⟨dictSetdefault d.entries k Value.ellipsis, d.autosave, d.file⟩ ha hser]
  refine ⟨rfl, ?_⟩
  show dictGet (dictSetdefault d.entries k Value.ellipsis) k = some Value.ellipsis
  rw [hins]
  exact dictGet_append_self d.entries k Value.ellipsis hc

theorem setdefault_sentinel_witness :
    (PerDict.setdefaultNoDefault ⟨[], true, .doc []⟩ "k").1
      = .error PDError.serializationError ∧
    dictGet (PerDict.setdefaultNoDefault ⟨[], true, .doc []⟩ "k").2.entries "k"
      = some Value.ellipsis :=
  setdefault_sentinel ⟨[], true, .doc []⟩ "k" rfl rfl
